import Mathlib

/-!
Shallow embedding of the libforth virtual machine (libforth.c) and proofs
about the claims of its specification.

Cells are modelled as `Nat`; `W` is `sizeof(forth_cell_t)` in bytes and is
kept as an explicit parameter (the C source is width-generic).  VM memory is
a total function from cell indices to cell values; byte-level access (used
by `strcpy` in `compile` and by `istrcmp` in `forth_find`) is derived from
the cells with a little-endian byte order (the byte order is immaterial for
the theorems proved here, which either quantify over the memory or
read back bytes the same way they were written).
-/

namespace Libforth

/-- VM memory: a total map from cell offsets to cell values. -/
abbrev Mem := Nat → Nat

/-- Pointwise update of a memory: `upd m i v` is `m` with cell `i` set to `v`. -/
def upd (m : Mem) (i v : Nat) : Mem := fun j => if j = i then v else m j

theorem upd_same (m : Mem) (i v : Nat) : upd m i v i = v := by
  simp [upd]

theorem upd_ne (m : Mem) {j i : Nat} (v : Nat) (h : j ≠ i) : upd m i v j = m j := by
  simp [upd, h]

/-! Constants from libforth.c (sections 1 and 2). -/

/-- STRING_OFFSET: offset (in cells) of the string input buffer. -/
def STRING_OFFSET : Nat := 32

/-- MAX_WORD_LENGTH: maximum length of a parsed word, in bytes. -/
def MAX_WORD_LENGTH : Nat := 32

/-- DICTIONARY_START = STRING_OFFSET + MAX_WORD_LENGTH. -/
def DICTIONARY_START : Nat := STRING_OFFSET + MAX_WORD_LENGTH

/-- WORD_LENGTH_OFFSET: bit offset of the name-length field inside MISC. -/
def WORD_LENGTH_OFFSET : Nat := 8

/-- WORD_LENGTH macro: name length (in cells) stored in a MISC field. -/
def WORD_LENGTH (field1 : Nat) : Nat := (field1 >>> WORD_LENGTH_OFFSET) &&& 0xff

/-- WORD_HIDDEN macro: the hidden bit of a MISC field. -/
def WORD_HIDDEN (field1 : Nat) : Nat := field1 &&& 0x80

/-- INSTRUCTION_MASK: low seven bits of a cell select the opcode. -/
def INSTRUCTION_MASK : Nat := 0x7f

/-- The `instruction` macro: `(k) & INSTRUCTION_MASK`. -/
def instruction (k : Nat) : Nat := k &&& INSTRUCTION_MASK

/-- BLOCK_SIZE: size of a forth block in bytes. -/
def BLOCK_SIZE : Nat := 1024

/-- CORE_VERSION: version byte of the forth core file format. -/
def CORE_VERSION : Nat := 2

/-! Register indices (enum registers). -/

/-- DIC register: dictionary pointer, cell 6. -/
def DIC : Nat := 6

/-- RSTK register: return stack pointer, cell 7. -/
def RSTK : Nat := 7

/-- STATE register: compile (1) or command (0) mode, cell 8. -/
def STATE : Nat := 8

/-- BASE register: numeric base, cell 9. -/
def BASE : Nat := 9

/-- PWD register: pointer to the previous word, cell 10. -/
def PWD : Nat := 10

/-- INVALID register: non-zero marks the instance poisoned, cell 24. -/
def INVALID : Nat := 24

/-- TOP register: stored top of the data stack, cell 25. -/
def TOP : Nat := 25

/-- STACK_SIZE register: size of the stacks, cell 27. -/
def STACK_SIZE : Nat := 27

/-! Opcodes (enum instructions); only the ones the proofs mention are named. -/

/-- PUSH opcode (0). -/
def PUSH : Nat := 0

/-- COMPILE opcode (1). -/
def COMPILE : Nat := 1

/-- RUN opcode (2). -/
def RUN : Nat := 2

/-- DEFINE opcode (3). -/
def DEFINE : Nat := 3

/-- IMMEDIATE opcode (4). -/
def IMMEDIATE : Nat := 4

/-- READ opcode (5). -/
def READ : Nat := 5

/-- DIV opcode (17). -/
def DIV : Nat := 17

/-! Byte-level view of cell memory (the C code reads and writes name strings
through a `uint8_t` or `char` pointer into `o->m`). -/

/-- Byte `a` of the memory, little-endian within each `W`-byte cell. -/
def byteAt (W : Nat) (m : Mem) (a : Nat) : Nat :=
  (m (a / W) >>> (8 * (a % W))) &&& 255

/-- Replace byte number `k` of a `W`-byte cell value with `b`. -/
def replaceByte (W cell k b : Nat) : Nat :=
  (cell &&& ((2 ^ (8 * W) - 1) ^^^ (255 <<< (8 * k)))) ||| (b <<< (8 * k))

/-- Store byte `b` at byte address `a` of the memory. -/
def setByte (W : Nat) (m : Mem) (a b : Nat) : Mem :=
  upd m (a / W) (replaceByte W (m (a / W)) (a % W) b)

/-- Store a list of bytes at consecutive byte addresses starting at `a`. -/
def writeBytes (W : Nat) (m : Mem) (a : Nat) : List Nat → Mem
  | [] => m
  | b :: bs => writeBytes W (setByte W m a b) (a + 1) bs

/-- The `strcpy((char *)(o->m + header), str)` of `compile`: copy the name
bytes and a terminating NUL to the byte address of cell `c`. -/
def strcpyCells (W : Nat) (m : Mem) (c : Nat) (str : List Nat) : Mem :=
  writeBytes W m (c * W) (str ++ [0])

/-- Aligned name length in cells: `l = strlen(str)+1` rounded up to a
multiple of `W` and divided by `W`.  The C code rounds with
`(l + (W-1)) & ~(W-1)`, which for the power-of-two `W = sizeof(forth_cell_t)`
equals `(l + (W-1)) - ((l + (W-1)) % W)`. -/
def lCells (W : Nat) (str : List Nat) : Nat :=
  ((str.length + 1 + (W - 1)) - ((str.length + 1 + (W - 1)) % W)) / W

/-- The C function `compile`: append a word header for name `str` with
opcode `code` to the dictionary.  Mirrors the source line by line:
copy the name, `m[DIC] += l`, `m[m[DIC]++] = m[PWD]`,
`m[PWD] = m[DIC] - 1`, `m[m[DIC]++] = (l << WORD_LENGTH_OFFSET) | code`.
A post-incrementing store `m[m[reg]++] = v` is modelled as the register
update followed by the store. -/
def compile (W : Nat) (m : Mem) (str : List Nat) (code : Nat) : Mem :=
  let header := m DIC
  let m1 := strcpyCells W m header str
  let l := lCells W str
  let m2 := upd m1 DIC (m1 DIC + l)
  let m3 := upd (upd m2 DIC (m2 DIC + 1)) (m2 DIC) (m2 PWD)
  let m4 := upd m3 PWD (m3 DIC - 1)
  upd (upd m4 DIC (m4 DIC + 1)) (m4 DIC) ((l <<< WORD_LENGTH_OFFSET) ||| code)

/-! Case-insensitive comparison and dictionary search. -/

/-- C `tolower` for the ASCII range. -/
def tolower (c : Nat) : Nat := if 65 ≤ c ∧ c ≤ 90 then c + 32 else c

/-- The C function `istrcmp`, comparing the NUL-terminated token `s`
(modelled as its list of bytes, NUL implicit at the end) against the bytes
stored in memory from byte address `a` on.  The C loop advances while
`(*a == *b || tolower(*a) == tolower(*b)) && *a && *b`; since `*a == *b`
implies equal `tolower` images the condition is exactly the one used here.
Returns `tolower(*a) - tolower(*b)` at the first stop. -/
def istrcmp_mem (W : Nat) (m : Mem) : List Nat → Nat → Int
  | [], a => 0 - (tolower (byteAt W m a) : Int)
  | c :: cs, a =>
    if tolower c = tolower (byteAt W m a) ∧ c ≠ 0 ∧ byteAt W m a ≠ 0
    then istrcmp_mem W m cs (a + 1)
    else (tolower c : Int) - (tolower (byteAt W m a) : Int)

/-- Loop of `forth_find`: walk the PWD chain from link cell `w`, skipping
hidden words and non-matching names; the C `for` loop is given explicit
fuel (`none` = fuel exhausted, a modelling artifact — the C loop may run
as long as the chain does).  `len` is recomputed from the current `w` each
iteration exactly as the source does. -/
def forth_find_go (W : Nat) (m : Mem) (s : List Nat) : Nat → Nat → Option Nat
  | 0, _ => none
  | fuel + 1, w =>
    if w > DICTIONARY_START ∧
        (WORD_HIDDEN (m (w + 1)) ≠ 0 ∨
          istrcmp_mem W m s ((w - WORD_LENGTH (m (w + 1))) * W) ≠ 0)
    then forth_find_go W m s fuel (m w)
    else some (if w > DICTIONARY_START then w + 1 else 0)

/-- The C function `forth_find`: find token `s` in the dictionary, starting
from the PWD register; returns `w + 1` (the MISC-cell offset) on a match and
`0` when the chain is exhausted. -/
def forth_find (W : Nat) (m : Mem) (s : List Nat) (fuel : Nat) : Option Nat :=
  forth_find_go W m s fuel (m PWD)

/-! Number parsing (`numberify`, built on C `strtol`).  The host `long` is
modelled as a 64-bit signed integer (overflow clamps to `LONG_MAX` /
`LONG_MIN` and sets `errno = ERANGE`, which makes `numberify` fail). -/

/-- Value of an ASCII digit character under bases up to 36. -/
def digitVal (c : Nat) : Option Nat :=
  if 48 ≤ c ∧ c ≤ 57 then some (c - 48)
  else if 65 ≤ c ∧ c ≤ 90 then some (c - 55)
  else if 97 ≤ c ∧ c ≤ 122 then some (c - 87)
  else none

/-- C `isspace` for the default locale. -/
def isspaceB (c : Nat) : Bool := c == 32 || (9 ≤ c && c ≤ 13)

/-- Whether a byte is a hexadecimal digit. -/
def isHexDigitB (c : Nat) : Bool :=
  match digitVal c with
  | some v => decide (v < 16)
  | none => false

/-- Whether the list starts with a `0x`/`0X` prefix followed by a hex digit
(only then does `strtol` consume the prefix). -/
def hasHexPfx (s : List Nat) : Bool :=
  match s with
  | 48 :: x :: d :: _ => (x == 120 || x == 88) && isHexDigitB d
  | _ => false

/-- Consume the longest run of digits valid under `base`, accumulating the
magnitude; returns (number of digits consumed, magnitude, rest). -/
def takeDigits (base acc : Nat) : List Nat → Nat × Nat × List Nat
  | [] => (0, acc, [])
  | c :: cs =>
    match digitVal c with
    | some d =>
      if d < base then
        let r := takeDigits base (acc * base + d) cs
        (r.1 + 1, r.2)
      else (0, acc, c :: cs)
    | none => (0, acc, c :: cs)

/-- C `strtol(s, &end, base)`: returns (value, suffix of `s` at `end`,
errno set).  An invalid base yields 0 with `errno` set (glibc `EINVAL`);
when no digits are consumed the end pointer is the original string and
`errno` is untouched; overflow clamps and sets `ERANGE`. -/
def strtol (base : Nat) (s : List Nat) : Int × List Nat × Bool :=
  if base = 1 ∨ 36 < base then (0, s, true)
  else
    let s1 := s.dropWhile (fun c => isspaceB c)
    let neg : Bool := match s1 with | 45 :: _ => true | _ => false
    let s2 : List Nat :=
      match s1 with
      | 43 :: t => t
      | 45 :: t => t
      | t => t
    let b3 : Nat × List Nat :=
      if (base = 16 ∨ base = 0) ∧ hasHexPfx s2 then (16, s2.drop 2)
      else if base = 0 then
        match s2 with
        | 48 :: _ => (8, s2)
        | _ => (10, s2)
      else (base, s2)
    let r := takeDigits b3.1 0 b3.2
    if r.1 = 0 then (0, s, false)
    else if neg then
      if 2 ^ 63 < r.2.1 then (-(2 ^ 63 : Int), r.2.2, true)
      else (-(r.2.1 : Int), r.2.2, false)
    else
      if 2 ^ 63 - 1 < r.2.1 then ((2 ^ 63 - 1 : Int), r.2.2, true)
      else ((r.2.1 : Int), r.2.2, false)

/-- Conversion of a host `long` to a `forth_cell_t` of `W` bytes
(reduction modulo `2 ^ (8 W)`). -/
def int2cell (W : Nat) (x : Int) : Nat := (x % (2 ^ (8 * W) : Int)).toNat

/-- The C function `numberify`: the token converts iff `strtol` consumed the
whole non-empty token without setting `errno`; the converted value is stored
into a `forth_cell_t`. -/
def numberify (W base : Nat) (s : List Nat) : Option Nat :=
  let r := strtol base s
  if r.2.2 = false ∧ s ≠ [] ∧ r.2.1 = [] then some (int2cell W r.1) else none

/-! The virtual machine state and the dispatch cases the claims are about. -/

/-- The hot state of `forth_run`: the memory and the host-register copies
`S` (data-stack pointer, as a cell index into `m`), `f` (cached top of
stack) and `I` (instruction pointer), plus the instance's `core_size`. -/
structure VM where
  core_size : Nat
  m : Mem
  S : Nat
  f : Nat
  I : Nat

/-- Outcome of one dispatched instruction of the READ / DEFINE family.
`toEnd` is the C `goto end` (graceful exit on end of input); `findFuel` is
the modelling artifact of running `forth_find` with too little fuel;
`fatal` is a failed `ck` bounds check (the C code prints a fatal diagnostic
and long-jumps, poisoning the instance); `inner pc st` is `goto INNER` with
dispatch cursor `pc`; `notAWord tok st` emits the single diagnostic
`( error "<tok> is not a word" )` on stderr and falls through to the outer
loop; `next st` is the plain `break` back to the outer loop. -/
inductive ReadResult where
  | toEnd : VM → ReadResult
  | findFuel : ReadResult
  | fatal : ReadResult
  | inner : Nat → VM → ReadResult
  | notAWord : List Nat → VM → ReadResult
  | next : VM → ReadResult

/-- The READ case of `forth_run` (the outer interpreter).  `tok` is the
result of `forth_get_word` (`none` = end of input).  Mirrors the source:
a found word (`forth_find > 1`) jumps to INNER at its MISC cell, advanced
by one in command mode when the word's opcode is COMPILE (the `ck(pc)`
bounds check applies only on that path, short-circuit `&&`); otherwise the
token is parsed with `numberify` in the BASE register's base; failure emits
the not-a-word diagnostic; success appends the cells `2` (the cell offset
of the boot-time PUSH wrapper) and the value in compile mode — the first
store is unchecked in the source, the second goes through `ck` — or pushes
the value in command mode. -/
def readStep (W fuel : Nat) (st : VM) (tok : Option (List Nat)) : ReadResult :=
  match tok with
  | none => ReadResult.toEnd st
  | some s =>
    match forth_find W st.m s fuel with
    | none => ReadResult.findFuel
    | some w =>
      if 1 < w then
        if st.m STATE = 0 then
          if st.core_size ≤ w then ReadResult.fatal
          else
            ReadResult.inner (if instruction (st.m w) = COMPILE then w + 1 else w) st
        else ReadResult.inner w st
      else
        match numberify W (st.m BASE) s with
        | none => ReadResult.notAWord s st
        | some v =>
          if st.m STATE ≠ 0 then
            let m1 := upd (upd st.m DIC (st.m DIC + 1)) (st.m DIC) 2
            let d1 := m1 DIC
            if st.core_size ≤ d1 then ReadResult.fatal
            else ReadResult.next { st with m := upd (upd m1 DIC (d1 + 1)) d1 v }
          else
            ReadResult.next { st with m := upd st.m (st.S + 1) st.f, S := st.S + 1, f := v }

/-- The DIV case of `forth_run`: `if (f) f = *S-- / f; else` print the
single diagnostic `( error "x/0" )`.  The boolean records whether the
diagnostic was emitted; division is unsigned (cells are `Nat`). -/
def divStep (st : VM) : VM × Bool :=
  if st.f = 0 then (st, true)
  else ({ st with f := st.m st.S / st.f, S := st.S - 1 }, false)

/-- The COMMA case of `forth_run`: `m[ck(m[DIC]++)] = f; f = *S--;`.
`Except.error ()` is the failed bounds check (fatal long-jump). -/
def commaStep (st : VM) : Except Unit VM :=
  let d := st.m DIC
  if st.core_size ≤ d then Except.error ()
  else
    let m2 := upd (upd st.m DIC (d + 1)) d st.f
    Except.ok { st with m := m2, f := m2 st.S, S := st.S - 1 }

/-- The DEFINE case of `forth_run` (the word `:`): set STATE to 1, read a
name (end of input exits dispatch), `compile(o, COMPILE, name)`, then
append one RUN cell through `ck`. -/
def defineStep (W : Nat) (st : VM) (tok : Option (List Nat)) : ReadResult :=
  let m0 := upd st.m STATE 1
  match tok with
  | none => ReadResult.toEnd { st with m := m0 }
  | some s =>
    let m2 := compile W m0 s COMPILE
    let d := m2 DIC
    if st.core_size ≤ d then ReadResult.fatal
    else ReadResult.next { st with m := upd (upd m2 DIC (d + 1)) d RUN }

/-- The IMMEDIATE case of `forth_run` (the word `immediate`):
`m[DIC] -= 2;  m[m[DIC]] &= ~INSTRUCTION_MASK;  m[m[DIC]] |= RUN;
m[DIC]++;`.  The complement `~INSTRUCTION_MASK` on a `W`-byte cell is
`(2^(8W) - 1) ^^^ INSTRUCTION_MASK`. -/
def immediateStep (W : Nat) (st : VM) : VM :=
  let m1 := upd st.m DIC (st.m DIC - 2)
  let m2 := upd m1 (m1 DIC) (m1 (m1 DIC) &&& ((2 ^ (8 * W) - 1) ^^^ INSTRUCTION_MASK))
  let m3 := upd m2 (m2 DIC) (m2 (m2 DIC) ||| RUN)
  { st with m := upd m3 DIC (m3 DIC + 1) }

/-! Block I/O, bounds checking, the host API and the image codec. -/

/-- Unsigned `W`-bit subtraction-and-compare helper: `usub bits a b` is the
value of the C expression `a - b` on an unsigned integer of `bits` bits. -/
def usub (bits a b : Nat) : Nat :=
  (a % 2 ^ bits + (2 ^ bits - b % 2 ^ bits)) % 2 ^ bits

/-- The C function `blockio`.  File-system effects are oracles: `fopen_ok`
is whether `fopen` succeeded, `n` the byte count `fread`/`fwrite` reported,
`data` the bytes delivered by `fread` (ignored when writing).  The guard is
the C `poffset > core_size*sizeof(cell) - BLOCK_SIZE` computed in unsigned
cell arithmetic; `wmode` is `rw == 'w'`.  Returns the `int` status and the
memory after the call (a read stores the `n` delivered bytes). -/
def blockio (W core_size : Nat) (m : Mem) (poffset blkid : Nat) (wmode : Bool)
    (fopen_ok : Bool) (n : Nat) (data : Nat → Nat) : Int × Mem :=
  if usub (8 * W) (core_size * W) BLOCK_SIZE < poffset then (-1, m)
  else if fopen_ok = false then (-1, m)
  else
    let m2 := if wmode then m else writeBytes W m poffset ((List.range n).map data)
    ((if n = BLOCK_SIZE then 0 else -1), m2)

/-- The BSAVE case of `forth_run`: `f = blockio(o, *S--, f, 'w')`.  The
status is narrowed into the cell-sized `f`; the oracles are passed through.
Note the result is a plain state: block I/O failure is not fatal. -/
def bsaveStep (W : Nat) (st : VM) (fopen_ok : Bool) (n : Nat) (data : Nat → Nat) : VM :=
  let r := blockio W st.core_size st.m (st.m st.S) st.f true fopen_ok n data
  { st with m := r.2, f := int2cell W r.1, S := st.S - 1 }

/-- The BLOAD case of `forth_run`: `f = blockio(o, *S--, f, 'r')`. -/
def bloadStep (W : Nat) (st : VM) (fopen_ok : Bool) (n : Nat) (data : Nat → Nat) : VM :=
  let r := blockio W st.core_size st.m (st.m st.S) st.f false fopen_ok n data
  { st with m := r.2, f := int2cell W r.1, S := st.S - 1 }

/-- The C function `check_bounds` (the `ck` macro): an access at cell `f`
with `f >= core_size` prints a fatal diagnostic and long-jumps (modelled as
`Except.error ()`; the landing pad sets INVALID and returns -1 from
`forth_run`); otherwise the index is passed through. -/
def check_bounds (core_size f : Nat) : Except Unit Nat :=
  if core_size ≤ f then Except.error () else Except.ok f

/-- Stack size chosen by `forth_make_default`:
`size / 64 > 64 ? size / 64 : 64`. -/
def stackSize (size : Nat) : Nat := if 64 < size / 64 then size / 64 else 64

/-- The idle-instance state seen by the host API (`struct forth` without
its runtime handles): core size, memory, and the data-stack pointer `S`
as a cell index. -/
structure Forth where
  core_size : Nat
  m : Mem
  S : Nat

/-- The C function `forth_push`: `*++(o->S) = o->m[TOP]; o->m[TOP] = f;`. -/
def forth_push (o : Forth) (f : Nat) : Forth :=
  { o with S := o.S + 1, m := upd (upd o.m (o.S + 1) (o.m TOP)) TOP f }

/-- The C function `forth_pop`:
`f = o->m[TOP]; o->m[TOP] = *(o->S)--; return f;`. -/
def forth_pop (o : Forth) : Nat × Forth :=
  (o.m TOP, { o with m := upd o.m TOP (o.m o.S), S := o.S - 1 })

/-- The error-landing state transition of `forth_run`:
`return -(o->m[INVALID] = 1)` writes 1 into the INVALID register. -/
def poison (o : Forth) : Forth := { o with m := upd o.m INVALID 1 }

/-- The value and state `forth_run` produces when it takes the error
branch: -1, with INVALID set to 1. -/
def forth_run_trap (o : Forth) : Int × Forth := (-1, poison o)

/-- The entry guard of `forth_run`:
`if (o->m[INVALID] || setjmp(*o->on_error)) return -(o->m[INVALID] = 1);`.
`some` is the early return of a poisoned instance (before any instruction
executes); `none` means the guard falls through into dispatch. -/
def forth_run_guard (o : Forth) : Option (Int × Forth) :=
  if o.m INVALID ≠ 0 then some (forth_run_trap o) else none

/-! The image codec (`forth_load_core`). -/

/-- The 8-byte header `make_header` builds on the running host: the magic
bytes `0xFF '4' 'T' 'H'`, the cell width, the version byte, the endianness
marker (`!IS_BIG_ENDIAN`: 0 on a big-endian host, 1 on a little-endian
one), and a final `0xFF`. -/
def make_header (W : Nat) (bigEndian : Bool) : List Nat :=
  [0xff, 52, 84, 72, W, CORE_VERSION, if bigEndian then 0 else 1, 0xff]

/-- Raw host-endian read of the 8-byte `uint64_t core_size` field. -/
def readU64 (bigEndian : Bool) (bs : List Nat) : Nat :=
  (if bigEndian then bs else bs.reverse).foldl (fun acc b => acc * 256 + b) 0

/-- The part of a loaded instance determined by the file contents (the
runtime registers are rebuilt by `forth_make_default` afterwards). -/
structure LoadedCore where
  core_size : Nat
  mem_bytes : List Nat

/-- The C function `forth_load_core` on the byte contents of the dump file:
read 8 header bytes (short read fails), require a byte-exact match with the
running host's header, read the 8-byte `core_size` (short read fails),
require `core_size >= MINIMUM_CORE_SIZE`, then read `core_size * W` bytes
of memory (short read fails).  `MINIMUM_CORE_SIZE` lives in `libforth.h`
and is kept as the parameter `minCore`; the claims do not depend on its
value.  The `calloc` failure path (which also returns null) is not
modelled. -/
def forth_load_core (W : Nat) (bigEndian : Bool) (minCore : Nat)
    (file : List Nat) : Option LoadedCore :=
  if (file.take 8).length ≠ 8 then none
  else if file.take 8 ≠ make_header W bigEndian then none
  else
    let r1 := file.drop 8
    if (r1.take 8).length ≠ 8 then none
    else
      let cs := readU64 bigEndian (r1.take 8)
      if cs < minCore then none
      else
        let body := r1.drop 8
        if (body.take (cs * W)).length ≠ cs * W then none
        else some ⟨cs, body.take (cs * W)⟩

/-! Shared helper lemmas. -/

theorem setByte_ne (W : Nat) (m : Mem) (a b : Nat) {j : Nat} (h : j ≠ a / W) :
    setByte W m a b j = m j :=
  upd_ne m _ h

theorem writeBytes_ne (W : Nat) (bs : List Nat) (m : Mem) (a : Nat) {j : Nat}
    (h : ∀ k, k < bs.length → j ≠ (a + k) / W) :
    writeBytes W m a bs j = m j := by
  induction bs generalizing m a with
  | nil => rfl
  | cons b bs ih =>
    have h0 : j ≠ a / W := by
      have := h 0 (by simp)
      simpa using this
    have hrec : ∀ k, k < bs.length → j ≠ (a + 1 + k) / W := by
      intro k hk
      have hx := h (k + 1) (by simp; omega)
      have hy : a + (k + 1) = a + 1 + k := by omega
      rwa [hy] at hx
    show writeBytes W (setByte W m a b) (a + 1) bs j = m j
    rw [ih (setByte W m a b) (a + 1) hrec, setByte_ne W m a b h0]

theorem strcpyCells_reg (W : Nat) (m : Mem) (c : Nat) (str : List Nat)
    (hW : 0 < W) {j : Nat} (hj : j < c) :
    strcpyCells W m c str j = m j := by
  apply writeBytes_ne
  intro k _
  have hc : c ≤ (c * W + k) / W := by
    rw [Nat.le_div_iff_mul_le hW]
    omega
  omega

/-- Summary of the memory `compile` produces, for a header placed in the
dictionary area (past the registers): the final DIC, the new PWD (which is
the offset of the PWD-link cell, `h + l`), the link cell holding the
previous PWD, the MISC cell, and the untouched register cells. -/
theorem compile_spec (W : Nat) (m : Mem) (str : List Nat) (code : Nat)
    (hW : 0 < W) (hh : 28 < m DIC) :
    compile W m str code DIC = m DIC + lCells W str + 2
    ∧ compile W m str code PWD = m DIC + lCells W str
    ∧ compile W m str code (m DIC + lCells W str) = m PWD
    ∧ compile W m str code (m DIC + lCells W str + 1) =
        ((lCells W str <<< WORD_LENGTH_OFFSET) ||| code)
    ∧ ∀ j, j ≤ 28 → j ≠ DIC → j ≠ PWD → compile W m str code j = m j := by
  have hD : DIC = 6 := rfl
  have hP : PWD = 10 := rfl
  have hstr : ∀ j, j ≤ 28 → strcpyCells W m (m DIC) str j = m j := fun j hj =>
    strcpyCells_reg W m (m DIC) str hW (by omega)
  simp only [compile]
  have a6 : strcpyCells W m (m DIC) str DIC = m DIC := hstr DIC (by decide)
  have a10 : strcpyCells W m (m DIC) str PWD = m PWD := hstr PWD (by decide)
  rw [a6]
  set A := strcpyCells W m (m DIC) str with hA
  set l := lCells W str with hl
  have e2 : upd A DIC (m DIC + l) DIC = m DIC + l := upd_same _ _ _
  rw [e2]
  have e2b : upd A DIC (m DIC + l) PWD = m PWD := by
    rw [upd_ne _ _ (by decide), a10]
  rw [e2b]
  have e3 : upd (upd (upd A DIC (m DIC + l)) DIC (m DIC + l + 1)) (m DIC + l) (m PWD) DIC
      = m DIC + l + 1 := by
    rw [upd_ne _ _ (by omega), upd_same]
  rw [e3]
  have e4 : upd (upd (upd (upd A DIC (m DIC + l)) DIC (m DIC + l + 1)) (m DIC + l) (m PWD))
      PWD (m DIC + l + 1 - 1) DIC = m DIC + l + 1 := by
    rw [upd_ne _ _ (by decide), upd_ne _ _ (by omega), upd_same]
  rw [e4]
  refine ⟨?_, ?_, ?_, ?_, ?_⟩
  · rw [upd_ne _ _ (by omega), upd_same]
  · rw [upd_ne _ _ (by omega), upd_ne _ _ (by decide), upd_same]
    omega
  · rw [upd_ne _ _ (by omega), upd_ne _ _ (by omega), upd_ne _ _ (by omega), upd_same]
  · rw [upd_same]
  · intro j hj hjD hjP
    rw [upd_ne _ _ (by omega), upd_ne _ _ hjD, upd_ne _ _ hjP, upd_ne _ _ (by omega),
      upd_ne _ _ hjD, upd_ne _ _ hjD]
    exact hstr j hj

/-- `tolower` maps only NUL to NUL. -/
theorem tolower_eq_zero {c : Nat} : tolower c = 0 ↔ c = 0 := by
  unfold tolower
  split <;> omega

/-- `istrcmp` depends on the token only through its `tolower` image. -/
theorem istrcmp_mem_congr (W : Nat) (m : Mem) {s t : List Nat}
    (h : s.map tolower = t.map tolower) :
    ∀ a, istrcmp_mem W m s a = istrcmp_mem W m t a := by
  induction s generalizing t with
  | nil =>
    cases t with
    | nil => intro a; rfl
    | cons c cs => simp at h
  | cons c cs ih =>
    cases t with
    | nil => simp at h
    | cons c2 cs2 =>
      simp only [List.map_cons, List.cons.injEq] at h
      obtain ⟨h1, h2⟩ := h
      intro a
      have hzz : c = 0 ↔ c2 = 0 := by
        rw [← tolower_eq_zero, h1, tolower_eq_zero]
      simp only [istrcmp_mem]
      rw [h1, ih h2 (a + 1)]
      simp only [ne_eq, hzz]

/-- `forth_find_go` depends on the token only through its `tolower` image. -/
theorem forth_find_go_congr (W : Nat) (m : Mem) {s t : List Nat}
    (h : s.map tolower = t.map tolower) :
    ∀ fuel w, forth_find_go W m s fuel w = forth_find_go W m t fuel w := by
  intro fuel
  induction fuel with
  | zero => intro w; rfl
  | succ fuel ih =>
    intro w
    simp only [forth_find_go, istrcmp_mem_congr W m h, ih]

/-- Unsigned subtraction agrees with `Nat` subtraction in range. -/
theorem usub_eq (bits a b : Nat) (hba : b ≤ a) (ha : a < 2 ^ bits) :
    usub bits a b = a - b := by
  have hb : b < 2 ^ bits := by omega
  unfold usub
  rw [Nat.mod_eq_of_lt ha, Nat.mod_eq_of_lt hb]
  have h1 : a + (2 ^ bits - b) = 2 ^ bits + (a - b) := by omega
  rw [h1, Nat.add_mod_left]
  exact Nat.mod_eq_of_lt (by omega)

/-- Rewriting an opcode field to RUN: clearing the low seven bits of a cell
and or-ing in RUN makes the `instruction` field RUN. -/
theorem instruction_clear_or_run (bits x : Nat) (hb : 8 ≤ bits) :
    ((x &&& ((2 ^ bits - 1) ^^^ INSTRUCTION_MASK)) ||| RUN) &&& INSTRUCTION_MASK = RUN := by
  have hmask : INSTRUCTION_MASK = 2 ^ 7 - 1 := by decide
  have hrun : RUN = 2 ^ 1 := by decide
  apply Nat.eq_of_testBit_eq
  intro i
  simp only [hmask, hrun, Nat.testBit_and, Nat.testBit_or, Nat.testBit_xor,
    Nat.testBit_two_pow_sub_one, Nat.testBit_two_pow]
  by_cases h7 : i < 7
  · have hib : i < bits := by omega
    simp [h7, hib]
  · have h1 : ¬ (1 = i) := by omega
    simp [h7, h1]

/-! The claims. -/

/-- C2: executing the DIV opcode with cached top of stack `f = 0` emits
exactly one `( error "x/0" )` diagnostic (the boolean of `divStep`) and
leaves the machine state — in particular the cached top `f` and the stack
pointer `S` — completely unchanged; with `f ≠ 0` it replaces the top two
stack cells with the unsigned quotient `*S / f` (new cached top
`m[S] / f`, stack pointer decremented) and emits nothing. -/
theorem c2_div_by_zero (st : VM) :
    (st.f = 0 → divStep st = (st, true))
    ∧ (st.f ≠ 0 →
        divStep st = ({ st with f := st.m st.S / st.f, S := st.S - 1 }, false)) := by
  constructor
  · intro h
    simp [divStep, h]
  · intro h
    simp [divStep, h]

/-- C2 witness: the division-by-zero branch at a concrete state, and a
concrete division `12 / 4 = 3`. -/
theorem c2_witness :
    divStep ⟨100, fun _ => 12, 70, 0, 0⟩ = (⟨100, fun _ => 12, 70, 0, 0⟩, true)
    ∧ divStep ⟨100, fun _ => 12, 70, 4, 0⟩ = (⟨100, fun _ => 12, 69, 3, 0⟩, false) := by
  constructor
  · exact (c2_div_by_zero ⟨100, fun _ => 12, 70, 0, 0⟩).1 rfl
  · exact (c2_div_by_zero ⟨100, fun _ => 12, 70, 4, 0⟩).2 (by decide)

/-- C3 counterexample: on an instance with `N = 32768` cells the stack size
is `SS = 512` and the stack base is `N - 2*SS = 31744`; the claim says the
write of the cell that grows DIC past `N - 2*SS` is a fatal bounds error,
but `check_bounds` accepts every index below `N = core_size`, so a COMMA
at `DIC = 31744` succeeds and silently grows the dictionary into the stack
region. -/
theorem c3_counterexample :
    stackSize 32768 = 512
    ∧ 32768 - 2 * stackSize 32768 = 31744
    ∧ check_bounds 32768 31744 = Except.ok 31744
    ∧ check_bounds 32768 31744 ≠ Except.error ()
    ∧ commaStep ⟨32768, fun i => if i = 6 then 31744 else 0, 31800, 5, 0⟩ =
        Except.ok ⟨32768, upd (upd (fun i => if i = 6 then 31744 else 0) 6 31745) 31744 5,
          31799, 0, 0⟩ := by
  refine ⟨rfl, rfl, rfl, ?_, rfl⟩
  intro h
  rw [show check_bounds 32768 31744 = Except.ok 31744 from rfl] at h
  exact Except.noConfusion h

/-- C3 (amended): a dictionary append (COMMA shown; COMPILE, DEFINE and
compiled literals use the same `ck`) succeeds exactly when the written cell
index is below `core_size = N`; an index at or past `N` fails the bounds
check, which prints a fatal diagnostic, long-jumps, and makes `forth_run`
return -1 with INVALID set to 1.  The stack base `N - 2*SS` is not
enforced. -/
theorem c3_bounds (N d : Nat) (st : VM) (o : Forth) :
    (d < N → check_bounds N d = Except.ok d)
    ∧ (N ≤ d → check_bounds N d = Except.error ())
    ∧ (st.m DIC < st.core_size →
        commaStep st = Except.ok
          { st with m := upd (upd st.m DIC (st.m DIC + 1)) (st.m DIC) st.f,
                    f := upd (upd st.m DIC (st.m DIC + 1)) (st.m DIC) st.f st.S,
                    S := st.S - 1 })
    ∧ (st.core_size ≤ st.m DIC → commaStep st = Except.error ())
    ∧ (forth_run_trap o).1 = -1 ∧ ((forth_run_trap o).2).m INVALID = 1 := by
  refine ⟨?_, ?_, ?_, ?_, rfl, ?_⟩
  · intro h
    unfold check_bounds
    rw [if_neg (by omega)]
  · intro h
    unfold check_bounds
    rw [if_pos h]
  · intro h
    simp only [commaStep]
    rw [if_neg (by omega)]
  · intro h
    simp only [commaStep]
    rw [if_pos h]
  · show upd o.m INVALID 1 INVALID = 1
    exact upd_same _ _ _

/-- C3 witness: a write at index 100 of a 32768-cell instance succeeds; a
write at index 32768 is the fatal error. -/
theorem c3_witness :
    check_bounds 32768 100 = Except.ok 100
    ∧ check_bounds 32768 32768 = Except.error ()
    ∧ commaStep ⟨32768, fun i => if i = 6 then 32768 else 0, 31800, 5, 0⟩ =
        Except.error () := by
  refine ⟨?_, ?_, ?_⟩
  · exact (c3_bounds 32768 100 ⟨1, fun _ => 0, 0, 0, 0⟩ ⟨1, fun _ => 0, 0⟩).1 (by decide)
  · exact (c3_bounds 32768 32768 ⟨1, fun _ => 0, 0, 0, 0⟩ ⟨1, fun _ => 0, 0⟩).2.1 (by decide)
  · exact (c3_bounds 1 0 ⟨32768, fun i => if i = 6 then 32768 else 0, 31800, 5, 0⟩
      ⟨1, fun _ => 0, 0⟩).2.2.2.1 (by decide)

/-- C5: `forth_find` is case-insensitive — its result depends on the token
only through the `tolower` image of its bytes, so any two spellings of a
name that differ only in letter case (equal after `tolower`) give the same
result (the same MISC-cell offset when the name is present). -/
theorem c5_find_case_insensitive (W : Nat) (m : Mem) (s t : List Nat) (fuel : Nat)
    (h : s.map tolower = t.map tolower) :
    forth_find W m s fuel = forth_find W m t fuel := by
  unfold forth_find
  exact forth_find_go_congr W m h fuel (m PWD)

/-- C5 witness: a one-word dictionary (a word named `x` whose link cell is
at 67 and MISC cell at 68); the spellings `X` and `x` both find it, at the
same MISC offset 68. -/
theorem c5_witness :
    List.map tolower [88] = List.map tolower [120]
    ∧ forth_find 1
        (fun i => if i = 10 then 67 else if i = 65 then 120 else
          if i = 68 then 514 else if i = 6 then 100 else 0) [88] 2
      = forth_find 1
        (fun i => if i = 10 then 67 else if i = 65 then 120 else
          if i = 68 then 514 else if i = 6 then 100 else 0) [120] 2
    ∧ forth_find 1
        (fun i => if i = 10 then 67 else if i = 65 then 120 else
          if i = 68 then 514 else if i = 6 then 100 else 0) [88] 2 = some 68 := by
  refine ⟨by decide, ?_, by decide⟩
  exact c5_find_case_insensitive 1
    (fun i => if i = 10 then 67 else if i = 65 then 120 else
      if i = 68 then 514 else if i = 6 then 100 else 0) [88] [120] 2 (by decide)

/-- C8: `forth_run`'s entry guard falls through into dispatch exactly when
INVALID is zero; on a poisoned instance (INVALID nonzero) it returns -1
immediately, writes 1 into INVALID (so the flag stays nonzero — sticky),
changes no other cell and no other field, and a subsequent call again
returns -1 the same way. -/
theorem c8_invalid_sticky (o : Forth) :
    (o.m INVALID = 0 ↔ forth_run_guard o = none)
    ∧ (o.m INVALID ≠ 0 →
        forth_run_guard o = some (-1, poison o)
        ∧ (poison o).m INVALID = 1
        ∧ (poison o).S = o.S
        ∧ (poison o).core_size = o.core_size
        ∧ (∀ j, j ≠ INVALID → (poison o).m j = o.m j)
        ∧ forth_run_guard (poison o) = some (-1, poison (poison o))) := by
  constructor
  · constructor
    · intro h
      simp [forth_run_guard, h]
    · intro h
      by_cases h0 : o.m INVALID = 0
      · exact h0
      · simp [forth_run_guard, h0] at h
  · intro h
    have h2 : (poison o).m INVALID = 1 := by
      show upd o.m INVALID 1 INVALID = 1
      exact upd_same _ _ _
    refine ⟨by simp [forth_run_guard, h, forth_run_trap], h2, rfl, rfl, ?_, ?_⟩
    · intro j hj
      show upd o.m INVALID 1 j = o.m j
      exact upd_ne _ _ hj
    · simp [forth_run_guard, forth_run_trap, h2]

/-- C8 witness: a concrete poisoned instance is rejected with -1 twice in a
row, and a concrete clean instance passes the guard. -/
theorem c8_witness :
    forth_run_guard ⟨100, fun _ => 1, 70⟩ = some (-1, poison ⟨100, fun _ => 1, 70⟩)
    ∧ (poison ⟨100, fun _ => 1, 70⟩).m INVALID = 1
    ∧ forth_run_guard (poison ⟨100, fun _ => 1, 70⟩) =
        some (-1, poison (poison ⟨100, fun _ => 1, 70⟩))
    ∧ forth_run_guard ⟨100, fun _ => 0, 70⟩ = none := by
  have h := (c8_invalid_sticky ⟨100, fun _ => 1, 70⟩).2 (by decide)
  exact ⟨h.1, h.2.1, h.2.2.2.2.2, (c8_invalid_sticky ⟨100, fun _ => 0, 70⟩).1.mp rfl⟩

/-- C10: on an idle instance, `forth_pop` directly after `forth_push o x`
returns `x` and restores the TOP register, the stack pointer `S`, and every
memory cell other than the scratch slot above the old stack top, to their
values before the push.  The hypothesis `o.S + 1 ≠ TOP` holds on every real
instance (the data stack lives far above the register file). -/
theorem c10_push_pop (o : Forth) (x : Nat) (h : o.S + 1 ≠ TOP) :
    (forth_pop (forth_push o x)).1 = x
    ∧ ((forth_pop (forth_push o x)).2).m TOP = o.m TOP
    ∧ ((forth_pop (forth_push o x)).2).S = o.S
    ∧ ((forth_pop (forth_push o x)).2).core_size = o.core_size
    ∧ ∀ j, j ≠ o.S + 1 → j ≠ TOP →
        ((forth_pop (forth_push o x)).2).m j = o.m j := by
  unfold forth_push forth_pop
  refine ⟨?_, ?_, by simp, rfl, ?_⟩
  · show upd (upd o.m (o.S + 1) (o.m TOP)) TOP x TOP = x
    exact upd_same _ _ _
  · show upd (upd (upd o.m (o.S + 1) (o.m TOP)) TOP x) TOP
      ((upd (upd o.m (o.S + 1) (o.m TOP)) TOP x) (o.S + 1)) TOP = o.m TOP
    rw [upd_same, upd_ne _ _ h, upd_same]
  · intro j hj1 hj2
    show upd (upd (upd o.m (o.S + 1) (o.m TOP)) TOP x) TOP
      ((upd (upd o.m (o.S + 1) (o.m TOP)) TOP x) (o.S + 1)) j = o.m j
    rw [upd_ne _ _ hj2, upd_ne _ _ hj2, upd_ne _ _ hj1]

/-- C10 witness: pushing 42 on a concrete idle instance and popping returns
42 and restores TOP and S. -/
theorem c10_witness :
    (forth_pop (forth_push ⟨100, fun _ => 9, 70⟩ 42)).1 = 42
    ∧ ((forth_pop (forth_push ⟨100, fun _ => 9, 70⟩ 42)).2).m TOP = 9
    ∧ ((forth_pop (forth_push ⟨100, fun _ => 9, 70⟩ 42)).2).S = 70 := by
  have h := c10_push_pop ⟨100, fun _ => 9, 70⟩ 42 (by decide)
  exact ⟨h.1, h.2.1, h.2.2.1⟩

/-- C4 counterexample: compiling the word `dup` (name bytes 100,117,112,
one aligned name cell at `W = 8`) into an empty dictionary with header at
`h = DICTIONARY_START = 64` leaves `PWD = 65 = h + L` — the offset of the
word's PWD-link cell — and not `h + L + 1 = 66`, the MISC cell the claim
asserts. -/
theorem c4_counterexample :
    compile 8 (fun i => if i = 6 then 64 else 0) [100, 117, 112] 1 PWD = 65
    ∧ lCells 8 [100, 117, 112] = 1
    ∧ compile 8 (fun i => if i = 6 then 64 else 0) [100, 117, 112] 1 PWD
        ≠ 64 + lCells 8 [100, 117, 112] + 1 := by
  refine ⟨rfl, rfl, ?_⟩
  intro h
  have e1 : compile 8 (fun i => if i = 6 then 64 else 0) [100, 117, 112] 1 PWD = 65 := rfl
  have e2 : 64 + lCells 8 [100, 117, 112] + 1 = 66 := rfl
  rw [e1, e2] at h
  exact absurd h (by decide)

/-- C4 (amended): after `compile` finishes a word whose header starts at
cell `h = DIC` with an `L`-cell name, the PWD register holds the offset of
that word's PWD-link cell, `h + L`; the link cell at `h + L` holds the old
PWD — the offset of the previous word's PWD-link cell (0, the boot-time
terminator, ends the chain); DIC ends at `h + L + 2` and the MISC cell at
`h + L + 1` holds `(L << 8) | opcode`.  (`forth_find` walks these link
offsets and returns `w + 1`, the MISC cell, on a match.) -/
theorem c4_pwd_links (W : Nat) (m : Mem) (str : List Nat) (code : Nat)
    (hW : 0 < W) (hh : 28 < m DIC) :
    compile W m str code PWD = m DIC + lCells W str
    ∧ compile W m str code (m DIC + lCells W str) = m PWD
    ∧ compile W m str code DIC = m DIC + lCells W str + 2
    ∧ compile W m str code (m DIC + lCells W str + 1) =
        ((lCells W str <<< WORD_LENGTH_OFFSET) ||| code) := by
  obtain ⟨h1, h2, h3, h4, _⟩ := compile_spec W m str code hW hh
  exact ⟨h2, h3, h1, h4⟩

/-- C4 witness: the concrete instance of the amended claim — compiling
`dup` into the empty dictionary sets `PWD = 65`, a link cell `m[65] = 0`,
`DIC = 66`, and MISC `m[66] = (1 << 8) | 1`. -/
theorem c4_witness :
    compile 8 (fun i => if i = 6 then 64 else 0) [100, 117, 112] 1 PWD = 64 + 1
    ∧ compile 8 (fun i => if i = 6 then 64 else 0) [100, 117, 112] 1 (64 + 1) = 0
    ∧ compile 8 (fun i => if i = 6 then 64 else 0) [100, 117, 112] 1 DIC = 64 + 1 + 2
    ∧ compile 8 (fun i => if i = 6 then 64 else 0) [100, 117, 112] 1 (64 + 1 + 1) = 257 := by
  have h := c4_pwd_links 8 (fun i => if i = 6 then 64 else 0) [100, 117, 112] 1
    (by decide) (by decide)
  exact ⟨h.1, h.2.1, h.2.2.1, h.2.2.2⟩

/-- C6: `forth_load_core` returns an instance only if the first 8 bytes of
the file are byte-for-byte the running host's header (magic bytes, cell
width, version, endianness) and the 8-byte `core_size` field is at least
`MINIMUM_CORE_SIZE` (the parameter `minCore`, defined in libforth.h); in
particular any header difference — a different cell width, endianness or
version byte — makes it return null, as does a too-small core size. -/
theorem c6_load_core_validation (W : Nat) (bigEndian : Bool) (minCore : Nat)
    (file : List Nat) :
    (∀ ld, forth_load_core W bigEndian minCore file = some ld →
        file.take 8 = make_header W bigEndian
        ∧ minCore ≤ ld.core_size
        ∧ ld.core_size = readU64 bigEndian ((file.drop 8).take 8))
    ∧ (file.take 8 ≠ make_header W bigEndian →
        forth_load_core W bigEndian minCore file = none)
    ∧ (readU64 bigEndian ((file.drop 8).take 8) < minCore →
        forth_load_core W bigEndian minCore file = none) := by
  refine ⟨?_, ?_, ?_⟩
  · intro ld h
    simp only [forth_load_core] at h
    split_ifs at h with h1 h2 h3 h4 h5
    have hld := Option.some.inj h
    subst hld
    refine ⟨not_not.mp h2, ?_, rfl⟩
    show minCore ≤ readU64 bigEndian ((file.drop 8).take 8)
    omega
  · intro hne
    by_cases h1 : (file.take 8).length ≠ 8
    · simp only [forth_load_core, if_pos h1]
    · simp only [forth_load_core, if_neg h1, if_pos hne]
  · intro hlt
    by_cases h1 : (file.take 8).length ≠ 8
    · simp only [forth_load_core, if_pos h1]
    · by_cases h2 : file.take 8 ≠ make_header W bigEndian
      · simp only [forth_load_core, if_neg h1, if_pos h2]
      · by_cases h3 : ((file.drop 8).take 8).length ≠ 8
        · simp only [forth_load_core, if_neg h1, if_neg h2, if_pos h3]
        · simp only [forth_load_core, if_neg h1, if_neg h2, if_neg h3, if_pos hlt]

/-- C6 witness: on a host with 1-byte cells and little-endian byte order, a
well-formed 17-byte image (header, `core_size = 1`, one memory byte) loads,
so the theorem yields its header match and size bound; an image written
with cell width 4 is rejected on that host. -/
theorem c6_witness :
    forth_load_core 1 false 1 [255, 52, 84, 72, 1, 2, 1, 255, 1, 0, 0, 0, 0, 0, 0, 0, 7]
      = some ⟨1, [7]⟩
    ∧ [255, 52, 84, 72, 1, 2, 1, 255, 1, 0, 0, 0, 0, 0, 0, 0, 7].take 8
        = make_header 1 false
    ∧ 1 ≤ (LoadedCore.mk 1 [7]).core_size
    ∧ forth_load_core 1 false 1 [255, 52, 84, 72, 4, 2, 1, 255] = none := by
  have h := (c6_load_core_validation 1 false 1
    [255, 52, 84, 72, 1, 2, 1, 255, 1, 0, 0, 0, 0, 0, 0, 0, 7]).1 ⟨1, [7]⟩ rfl
  refine ⟨rfl, h.1, h.2.1, ?_⟩
  exact (c6_load_core_validation 1 false 1 [255, 52, 84, 72, 4, 2, 1, 255]).2.1 (by decide)

/-- C7: `blockio` with a byte offset past `N*W - 1024` returns -1 without
touching memory; in range, it returns 0 exactly when `fopen` succeeded and
the full 1024-byte transfer happened, and -1 (its only other result) on
any I/O failure; and the BSAVE/BLOAD dispatch cases simply store the
status (as a cell: -1 becomes the all-ones cell) into the cached top and
pop the offset — a plain state update, never a fatal error, so execution
continues. -/
theorem c7_blockio_bounds (W core_size : Nat) (m : Mem) (poffset blkid n : Nat)
    (wmode fopen_ok : Bool) (data : Nat → Nat)
    (hbytes : BLOCK_SIZE ≤ core_size * W) (hfit : core_size * W < 2 ^ (8 * W)) :
    (core_size * W - BLOCK_SIZE < poffset →
        blockio W core_size m poffset blkid wmode fopen_ok n data = (-1, m))
    ∧ (poffset ≤ core_size * W - BLOCK_SIZE →
        (((blockio W core_size m poffset blkid wmode fopen_ok n data).1 = 0
            ↔ fopen_ok = true ∧ n = BLOCK_SIZE)
          ∧ ((blockio W core_size m poffset blkid wmode fopen_ok n data).1 = 0
              ∨ (blockio W core_size m poffset blkid wmode fopen_ok n data).1 = -1)))
    ∧ (∀ st : VM, ∀ ok2 n2 data2,
        bsaveStep W st ok2 n2 data2 =
          { st with
            m := (blockio W st.core_size st.m (st.m st.S) st.f true ok2 n2 data2).2,
            f := int2cell W (blockio W st.core_size st.m (st.m st.S) st.f true ok2 n2 data2).1,
            S := st.S - 1 }
        ∧ bloadStep W st ok2 n2 data2 =
          { st with
            m := (blockio W st.core_size st.m (st.m st.S) st.f false ok2 n2 data2).2,
            f := int2cell W (blockio W st.core_size st.m (st.m st.S) st.f false ok2 n2 data2).1,
            S := st.S - 1 })
    ∧ int2cell W (-1) = 2 ^ (8 * W) - 1 := by
  have husub : usub (8 * W) (core_size * W) BLOCK_SIZE = core_size * W - BLOCK_SIZE :=
    usub_eq (8 * W) (core_size * W) BLOCK_SIZE hbytes hfit
  refine ⟨?_, ?_, ?_, ?_⟩
  · intro h
    simp only [blockio, husub]
    rw [if_pos h]
  · intro h
    have hg : ¬ (usub (8 * W) (core_size * W) BLOCK_SIZE < poffset) := by
      rw [husub]; omega
    by_cases hok : fopen_ok = false
    · constructor
      · simp [blockio, hg, hok]
      · right
        simp [blockio, hg, hok]
    · have hok2 : fopen_ok = true := by
        revert hok; cases fopen_ok <;> simp
      by_cases hn : n = BLOCK_SIZE
      · constructor
        · simp [blockio, hg, hok2, hn]
        · left
          simp [blockio, hg, hok2, hn]
      · constructor
        · simp [blockio, hg, hok2, hn]
        · right
          simp [blockio, hg, hok2, hn]
  · intro st ok2 n2 data2
    exact ⟨rfl, rfl⟩
  · unfold int2cell
    have ht : (0 : Int) < 2 ^ (8 * W) := by positivity
    have h1 : (-1 : Int) % 2 ^ (8 * W) = 2 ^ (8 * W) - 1 := by
      have h2 : (-1 : Int) = (2 ^ (8 * W) - 1) + 2 ^ (8 * W) * (-1) := by ring
      rw [h2, Int.add_mul_emod_self_left, Int.emod_eq_of_lt (by omega) (by omega)]
    rw [h1]
    have h4 : (1 : Nat) ≤ 2 ^ (8 * W) := Nat.one_le_two_pow
    have h3 : ((2 : Int) ^ (8 * W) - 1) = ((2 ^ (8 * W) - 1 : Nat) : Int) := by
      push_cast [h4]
      ring
    rw [h3]
    exact Int.toNat_natCast _

/-- C7 witness: on a 2-byte-cell host with 2048 cells (4096 memory bytes),
offset 4000 is out of range and fails with the memory untouched; offset 0
with a successful full transfer returns 0; and the failure status stored in
the cell-sized cached top is the all-ones cell 65535. -/
theorem c7_witness :
    blockio 2 2048 (fun _ => 0) 4000 1 true true 1024 (fun _ => 0) = (-1, fun _ => 0)
    ∧ (blockio 2 2048 (fun _ => 0) 0 1 true true 1024 (fun _ => 0)).1 = 0
    ∧ int2cell 2 (-1) = 65535 := by
  refine ⟨?_, ?_, ?_⟩
  · exact (c7_blockio_bounds 2 2048 (fun _ => 0) 4000 1 1024 true true (fun _ => 0)
      (by decide) (by decide)).1 (by decide)
  · exact (((c7_blockio_bounds 2 2048 (fun _ => 0) 0 1 1024 true true (fun _ => 0)
      (by decide) (by decide)).2.1 (by decide)).1).mpr ⟨rfl, rfl⟩
  · have h := (c7_blockio_bounds 2 2048 (fun _ => 0) 0 1 1024 true true (fun _ => 0)
      (by decide) (by decide)).2.2.2
    exact h.trans (by norm_num)

/-- C1: when READ gets a token that is not in the dictionary
(`forth_find` returns 0), it parses it with `numberify` in the base held in
the BASE register.  On parse failure it emits the single diagnostic
`( error "<tok> is not a word" )` and resumes the read loop with the state
untouched (the `notAWord` outcome).  On success with STATE = 1 it appends
exactly the two cells `2` (the offset of the internal PUSH wrapper) and
the value: the result state stores 2 at the old DIC, bumps DIC, stores the
value, bumps DIC again.  On success with STATE = 0 it pushes the value
onto the data stack: the old cached top is spilled to `m[S+1]`, `S` is
incremented and the cached top becomes the value. -/
theorem c1_read_number (W fuel : Nat) (st : VM) (s : List Nat)
    (hfind : forth_find W st.m s fuel = some 0)
    (hdic : 28 < st.m DIC) (hcore : st.m DIC + 1 < st.core_size) :
    (numberify W (st.m BASE) s = none →
        readStep W fuel st (some s) = ReadResult.notAWord s st)
    ∧ (∀ v, numberify W (st.m BASE) s = some v → st.m STATE = 1 →
        readStep W fuel st (some s) = ReadResult.next
          { st with m := upd (upd (upd (upd st.m DIC (st.m DIC + 1)) (st.m DIC) 2)
              DIC (st.m DIC + 2)) (st.m DIC + 1) v })
    ∧ (∀ v, numberify W (st.m BASE) s = some v → st.m STATE = 0 →
        readStep W fuel st (some s) = ReadResult.next
          { st with m := upd st.m (st.S + 1) st.f, S := st.S + 1, f := v }) := by
  have h6 : DIC = 6 := rfl
  refine ⟨?_, ?_, ?_⟩
  · intro hnum
    simp [readStep, hfind, hnum]
  · intro v hnum hstate
    have hm1 : (upd (upd st.m DIC (st.m DIC + 1)) (st.m DIC) 2) DIC = st.m DIC + 1 := by
      rw [upd_ne _ _ (by omega), upd_same]
    have hcc : ¬ (st.core_size ≤ st.m DIC + 1) := by omega
    have hadd : st.m DIC + 1 + 1 = st.m DIC + 2 := by omega
    simp [readStep, hfind, hnum, hstate, hm1, hcc, hadd]
  · intro v hnum hstate
    simp [readStep, hfind, hnum, hstate]

/-- C1 witness: in a register-only memory (empty dictionary, `PWD = 0`,
`BASE = 10`, `DIC = 100`), the token `z` is not a word and not a number —
the diagnostic fires and the state is unchanged; the token `7` compiles to
the cells `(2, 7)` when STATE = 1 and is pushed when STATE = 0. -/
theorem c1_witness :
    readStep 8 1 ⟨200, fun i => if i = 6 then 100 else if i = 9 then 10 else 0, 150, 3, 0⟩
        (some [122])
      = ReadResult.notAWord [122]
          ⟨200, fun i => if i = 6 then 100 else if i = 9 then 10 else 0, 150, 3, 0⟩
    ∧ readStep 8 1
        ⟨200, fun i => if i = 6 then 100 else if i = 8 then 1 else if i = 9 then 10 else 0,
          150, 3, 0⟩ (some [55])
      = ReadResult.next
          ⟨200, upd (upd (upd (upd
              (fun i => if i = 6 then 100 else if i = 8 then 1 else if i = 9 then 10 else 0)
              6 101) 100 2) 6 102) 101 7, 150, 3, 0⟩
    ∧ readStep 8 1 ⟨200, fun i => if i = 6 then 100 else if i = 9 then 10 else 0, 150, 3, 0⟩
        (some [55])
      = ReadResult.next
          ⟨200, upd (fun i => if i = 6 then 100 else if i = 9 then 10 else 0) 151 3,
            151, 7, 0⟩ := by
  refine ⟨?_, ?_, ?_⟩
  · exact (c1_read_number 8 1
      ⟨200, fun i => if i = 6 then 100 else if i = 9 then 10 else 0, 150, 3, 0⟩ [122]
      (by decide) (by decide) (by decide)).1 (by decide)
  · exact (c1_read_number 8 1
      ⟨200, fun i => if i = 6 then 100 else if i = 8 then 1 else if i = 9 then 10 else 0,
        150, 3, 0⟩ [55] (by decide) (by decide) (by decide)).2.1 7 (by decide) (by decide)
  · exact (c1_read_number 8 1
      ⟨200, fun i => if i = 6 then 100 else if i = 9 then 10 else 0, 150, 3, 0⟩ [55]
      (by decide) (by decide) (by decide)).2.2 7 (by decide) (by decide)

/-- C9: immediately after `:` (DEFINE) has emitted a word's header and its
RUN code cell, applying `immediate` (IMMEDIATE) rewrites the instruction
field of that word's MISC cell (the cell after the one PWD points at) to
RUN; and READ dispatches any found word whose MISC instruction is not
COMPILE to the same place — `ReadResult.inner w st`, independent of the
STATE register — so the word executes its body in command mode and compile
mode alike. -/
theorem c9_immediate_run (W : Nat) (st : VM) (s : List Nat)
    (hW : 0 < W) (hdic : 28 < st.m DIC)
    (hcore : st.m DIC + lCells W s + 2 < st.core_size) :
    defineStep W st (some s) = ReadResult.next
      { st with m := upd (upd (compile W (upd st.m STATE 1) s COMPILE) DIC
          (st.m DIC + lCells W s + 2 + 1)) (st.m DIC + lCells W s + 2) RUN }
    ∧ (immediateStep W { st with m := upd (upd (compile W (upd st.m STATE 1) s COMPILE) DIC
          (st.m DIC + lCells W s + 2 + 1)) (st.m DIC + lCells W s + 2) RUN }).m PWD
        = st.m DIC + lCells W s
    ∧ instruction ((immediateStep W { st with
          m := upd (upd (compile W (upd st.m STATE 1) s COMPILE) DIC
            (st.m DIC + lCells W s + 2 + 1)) (st.m DIC + lCells W s + 2) RUN }).m
        ((immediateStep W { st with
          m := upd (upd (compile W (upd st.m STATE 1) s COMPILE) DIC
            (st.m DIC + lCells W s + 2 + 1)) (st.m DIC + lCells W s + 2) RUN }).m PWD + 1))
        = RUN
    ∧ (∀ fuel (st2 : VM) (s2 : List Nat) w,
        forth_find W st2.m s2 fuel = some w → 1 < w → w < st2.core_size →
        instruction (st2.m w) ≠ COMPILE →
        readStep W fuel st2 (some s2) = ReadResult.inner w st2) := by
  have h6 : DIC = 6 := rfl
  have h10 : PWD = 10 := rfl
  have hm0D : (upd st.m STATE 1) DIC = st.m DIC := upd_ne _ _ (by decide)
  have hm0 : 28 < (upd st.m STATE 1) DIC := by
    rw [hm0D]
    exact hdic
  obtain ⟨hcD, hcP, hcL, hcM, _⟩ := compile_spec W (upd st.m STATE 1) s COMPILE hW hm0
  rw [hm0D] at hcD hcP hcL hcM
  set M1 := upd (upd (compile W (upd st.m STATE 1) s COMPILE) DIC
    (st.m DIC + lCells W s + 2 + 1)) (st.m DIC + lCells W s + 2) RUN with hM1eq
  have hM1D : M1 DIC = st.m DIC + lCells W s + 2 + 1 := by
    rw [hM1eq, upd_ne _ _ (by omega), upd_same]
  have hM1P : M1 PWD = st.m DIC + lCells W s := by
    rw [hM1eq, upd_ne _ _ (by omega), upd_ne _ _ (by decide)]
    exact hcP
  have hM1M : M1 (st.m DIC + lCells W s + 1)
      = ((lCells W s <<< WORD_LENGTH_OFFSET) ||| COMPILE) := by
    rw [hM1eq, upd_ne _ _ (by omega), upd_ne _ _ (by omega)]
    exact hcM
  have f1 : (upd M1 DIC (M1 DIC - 2)) DIC = st.m DIC + lCells W s + 1 := by
    rw [upd_same, hM1D]
    omega
  have f2 : (upd M1 DIC (M1 DIC - 2)) (st.m DIC + lCells W s + 1)
      = ((lCells W s <<< WORD_LENGTH_OFFSET) ||| COMPILE) := by
    rw [upd_ne _ _ (by omega)]
    exact hM1M
  have f3 : (upd (upd M1 DIC (M1 DIC - 2)) (st.m DIC + lCells W s + 1)
      (((lCells W s <<< WORD_LENGTH_OFFSET) ||| COMPILE)
        &&& ((2 ^ (8 * W) - 1) ^^^ INSTRUCTION_MASK))) DIC = st.m DIC + lCells W s + 1 := by
    rw [upd_ne _ _ (by omega), f1]
  have f4 : (upd (upd M1 DIC (M1 DIC - 2)) (st.m DIC + lCells W s + 1)
      (((lCells W s <<< WORD_LENGTH_OFFSET) ||| COMPILE)
        &&& ((2 ^ (8 * W) - 1) ^^^ INSTRUCTION_MASK))) (st.m DIC + lCells W s + 1)
      = (((lCells W s <<< WORD_LENGTH_OFFSET) ||| COMPILE)
        &&& ((2 ^ (8 * W) - 1) ^^^ INSTRUCTION_MASK)) := upd_same _ _ _
  have hB : (immediateStep W { st with m := M1 }).m PWD = st.m DIC + lCells W s := by
    simp only [immediateStep]
    rw [f1, f2, f3, f4]
    rw [upd_ne _ _ (by decide), upd_ne _ _ (by omega), upd_ne _ _ (by omega),
      upd_ne _ _ (by decide)]
    exact hM1P
  have hC2 : (immediateStep W { st with m := M1 }).m (st.m DIC + lCells W s + 1)
      = ((((lCells W s <<< WORD_LENGTH_OFFSET) ||| COMPILE)
          &&& ((2 ^ (8 * W) - 1) ^^^ INSTRUCTION_MASK)) ||| RUN) := by
    simp only [immediateStep]
    rw [f1, f2, f3, f4]
    rw [upd_ne _ _ (by omega), upd_same]
  refine ⟨?_, hB, ?_, ?_⟩
  · simp only [defineStep]
    rw [hcD, if_neg (by omega)]
  · rw [hB, hC2]
    simp only [instruction]
    exact instruction_clear_or_run (8 * W) _ (by omega)
  · intro fuel st2 s2 w hf hw hwc hop
    simp only [readStep, hf]
    rw [if_pos hw]
    by_cases hst : st2.m STATE = 0
    · rw [if_pos hst, if_neg (by omega), if_neg hop]
    · rw [if_neg hst]

/-- C9 witness: on a 1-byte-cell host, defining a word `x` at
`DIC = 64` and applying `immediate` leaves MISC with instruction field
RUN; and in a dictionary holding a word `x` whose MISC (at 68) carries
opcode RUN, READ dispatches it to `inner 68` both with STATE = 0 (as in
the state shown) and regardless of mode by the theorem. -/
theorem c9_witness :
    instruction ((immediateStep 1 ⟨100,
        upd (upd (compile 1 (upd (fun i => if i = 6 then 64 else 0) 8 1) [120] 1) 6
          (64 + lCells 1 [120] + 2 + 1)) (64 + lCells 1 [120] + 2) 2, 0, 0, 0⟩).m
      ((immediateStep 1 ⟨100,
        upd (upd (compile 1 (upd (fun i => if i = 6 then 64 else 0) 8 1) [120] 1) 6
          (64 + lCells 1 [120] + 2 + 1)) (64 + lCells 1 [120] + 2) 2, 0, 0, 0⟩).m PWD + 1))
      = RUN
    ∧ readStep 1 2
        ⟨200, fun i => if i = 10 then 67 else if i = 65 then 120 else
          if i = 68 then 514 else if i = 6 then 100 else 0, 150, 0, 0⟩ (some [120])
      = ReadResult.inner 68
        ⟨200, fun i => if i = 10 then 67 else if i = 65 then 120 else
          if i = 68 then 514 else if i = 6 then 100 else 0, 150, 0, 0⟩ := by
  constructor
  · exact (c9_immediate_run 1 ⟨100, fun i => if i = 6 then 64 else 0, 0, 0, 0⟩ [120]
      (by decide) (by decide) (by decide)).2.2.1
  · exact (c9_immediate_run 1 ⟨100, fun i => if i = 6 then 64 else 0, 0, 0, 0⟩ [120]
      (by decide) (by decide) (by decide)).2.2.2 2
      ⟨200, fun i => if i = 10 then 67 else if i = 65 then 120 else
        if i = 68 then 514 else if i = 6 then 100 else 0, 150, 0, 0⟩ [120] 68
      (by decide) (by decide) (by decide) (by decide)

end Libforth
